import Mathlib

/-!
Verification of the memory-augmented LLM gateway and ingestion pipeline.

This file gives a shallow embedding, in Lean 4, of the parts of the Python
source that the verified properties talk about:

* the workspace sanitizer (apps/orchestrator/app/services/workspace.py),
* the chat route persistence and promotion trigger
  (apps/orchestrator/app/routes/chat.py, services/working_memory.py,
  services/summarizer.py),
* the memory composer (_build_augmented_messages in routes/chat.py),
* the streaming proxy (services/ollama_proxy.py, chat_completion_stream),
* the ingest worker message handler (apps/ingest-worker/app/main.py and db.py),
* the archive unpacker (apps/ingest-worker/app/processor.py),
* the document / codebase ingest routes (routes/documents.py),
* the code-structure extractor (apps/code-preprocessor/app/parser.py).

Strings are modelled as lists of characters, machine state as explicit
records, and network or database effects as explicit state passing.  Each
definition is a direct translation of the named Python function.
-/

/-! ## Workspace sanitizer (services/workspace.py) -/

/-- Characters accepted by the sanitizer character class, the regex
class written in the source as a-zA-Z0-9_- inside re.sub. -/
def allowedChar (c : Char) : Bool :=
  (97 ≤ c.toNat && c.toNat ≤ 122) || (65 ≤ c.toNat && c.toNat ≤ 90) ||
    (48 ≤ c.toNat && c.toNat ≤ 57) || c == '_' || c == '-'

/-- The whitespace set of the Python str.strip default: ASCII whitespace
9-13 and 28-32, NEL 133, NBSP 160, OGHAM 5760, the 8192-8202 range,
LS 8232, PS 8233, NNBSP 8239, MMSP 8287 and IDEOGRAPHIC SPACE 12288. -/
def pyWhitespace (c : Char) : Bool :=
  (9 ≤ c.toNat && c.toNat ≤ 13) || (28 ≤ c.toNat && c.toNat ≤ 32) ||
    c.toNat == 133 || c.toNat == 160 || c.toNat == 5760 ||
    (8192 ≤ c.toNat && c.toNat ≤ 8202) || c.toNat == 8232 || c.toNat == 8233 ||
    c.toNat == 8239 || c.toNat == 8287 || c.toNat == 12288

/-- Python str.strip with no argument: drop whitespace from both ends. -/
def pyStrip (s : List Char) : List Char :=
  ((s.dropWhile pyWhitespace).reverse.dropWhile pyWhitespace).reverse

/-- The _sanitize function of services/workspace.py: strip the input,
replace every character outside the allowed class by a dash, truncate to
64 characters, and fall back to the literal string default when the
truncation is empty (the Python or-idiom on a falsy empty string). -/
def sanitize (s : List Char) : List Char :=
  let cleaned := (pyStrip s).map (fun c => if allowedChar c then c else '-')
  let truncated := cleaned.take 64
  if truncated.isEmpty then "default".toList else truncated

/-- The workspace regex of the specification, anchored on both sides:
one to 64 characters, all in the allowed class. -/
def matchesWorkspaceRegex (s : List Char) : Bool :=
  !s.isEmpty && s.length ≤ 64 && s.all allowedChar

/-! ## Chat data model (models.py) -/

inductive Role
  | system | user | assistant | tool
  deriving DecidableEq, Repr

/-- ChatMessage of models.py: role, optional content, optional name. -/
structure ChatMessage where
  role : Role
  content : Option String := none
  name : Option String := none
  deriving DecidableEq, Repr

/-- Python truthiness of the content field: false for None and for the
empty string. -/
def contentTruthy (m : ChatMessage) : Bool :=
  match m.content with
  | some s => !(s == "")
  | none => false

/-! ## Chat route persistence and promotion (routes/chat.py,
services/working_memory.py, services/summarizer.py) -/

/-- The loop of chat_completions step 4: scan the request messages keeping
the last one whose role is user. -/
def lastUserMessage (msgs : List ChatMessage) : Option ChatMessage :=
  msgs.foldl (fun acc m => if m.role = Role.user then some m else acc) none

/-- The two per-session stores a chat turn writes: the Redis short-term
list written by working_memory.append_turn, and the persistent
orchestrator_messages log written by recall_memory.store_message. -/
structure SessionStores where
  shortTerm : List ChatMessage
  persistent : List ChatMessage
  deriving DecidableEq, Repr

def emptyStores : SessionStores := ⟨[], []⟩

/-- Step 4 of chat_completions: when the request holds a user message, the
last such message is appended to the short-term buffer and inserted into
the persistent log; nothing else is stored. -/
def storeIncoming (st : SessionStores) (reqMessages : List ChatMessage) : SessionStores :=
  match lastUserMessage reqMessages with
  | some m => ⟨st.shortTerm ++ [m], st.persistent ++ [m]⟩
  | none => st

/-- maybe_promote of services/summarizer.py: which background promotions
run for a given turn count, as the pair (summarize_and_store ran,
promote_to_archival ran). -/
def maybePromote (promoteAfter archivalAfter turnCount : Nat) : Bool × Bool :=
  (decide (turnCount ≥ promoteAfter ∧ turnCount % promoteAfter = 0),
   decide (turnCount ≥ archivalAfter ∧ turnCount % archivalAfter = 0))

/-- The tail of the unary chat path: when the response has a choice its
message is appended to both stores, then get_turn_count reads the length
of the Redis short-term list (an LLEN, working_memory.py line 39) and that
count is handed to maybe_promote. Returns the new stores, the compared
turn count, and the promotion decisions. -/
def unaryTail (P A : Nat) (st : SessionStores) (respChoice : Option ChatMessage) :
    SessionStores × Nat × (Bool × Bool) :=
  let st2 := match respChoice with
    | some m => (⟨st.shortTerm ++ [m], st.persistent ++ [m]⟩ : SessionStores)
    | none => st
  let turnCount := st2.shortTerm.length
  (st2, turnCount, maybePromote P A turnCount)

/-- The post-stream continuation of the streaming chat path: when the
collected assistant content is non-empty it is stored in both stores and
maybe_promote runs on the short-term length; when it is empty nothing is
stored and maybe_promote is not called (the none result). -/
def streamTail (P A : Nat) (st : SessionStores) (fullResponse : String) :
    SessionStores × Option (Nat × (Bool × Bool)) :=
  if fullResponse == "" then (st, none)
  else
    let m : ChatMessage := ⟨Role.assistant, some fullResponse, none⟩
    let st2 : SessionStores := ⟨st.shortTerm ++ [m], st.persistent ++ [m]⟩
    let turnCount := st2.shortTerm.length
    (st2, some (turnCount, maybePromote P A turnCount))

/-- One complete unary chat turn: store the incoming last user message,
then the assistant response, then the promotion check. -/
def chatTurn (P A : Nat) (st : SessionStores) (reqMessages : List ChatMessage)
    (respChoice : Option ChatMessage) : SessionStores × Nat × (Bool × Bool) :=
  unaryTail P A (storeIncoming st reqMessages) respChoice

/-- What can happen to one session between requests: a unary chat turn, or
the TTL expiry of the Redis short-term key (append_turn sets EXPIRE with
session_ttl_seconds), which drops the short-term list while the persistent
orchestrator_messages rows remain. -/
inductive SessionEv
  | turn (reqMessages : List ChatMessage) (respChoice : Option ChatMessage)
  | ttlExpiry
  deriving Repr

def sessionStep (P A : Nat) (st : SessionStores) : SessionEv → SessionStores
  | SessionEv.turn req resp => (chatTurn P A st req resp).1
  | SessionEv.ttlExpiry => ⟨[], st.persistent⟩

def runSession (P A : Nat) (evs : List SessionEv) : SessionStores :=
  evs.foldl (sessionStep P A) emptyStores

/-! ## Memory composer (_build_augmented_messages of routes/chat.py) -/

/-- The first loop of _build_augmented_messages: the last message whose
role is system, and the non-system messages in their original order. -/
def splitSystem (msgs : List ChatMessage) : Option ChatMessage × List ChatMessage :=
  msgs.foldl
    (fun acc m =>
      if m.role = Role.system then (some m, acc.2) else (acc.1, acc.2 ++ [m]))
    (none, [])

/-- The user query: the content of the last non-system message whose role
is user and whose content is truthy; the empty string when there is none. -/
def findUserQuery (nonSystem : List ChatMessage) : String :=
  match nonSystem.reverse.find? (fun m => m.role == Role.user && contentTruthy m) with
  | some m => m.content.getD ""
  | none => ""

/-- Result of one memory-tier fetch gathered with return_exceptions: a
value, or the exception the fetch raised. -/
inductive Fetched (α : Type)
  | ok (value : α)
  | exn (message : String)
  deriving Repr

/-- The isinstance(x, Exception) fallback applied to each gathered result. -/
def fetchedOr {α : Type} (d : α) : Fetched α → α
  | Fetched.ok v => v
  | Fetched.exn _ => d

/-- Python str(x) on an optional string as an f-string renders it: the
literal None when the value is missing. -/
def pyFmtOptStr : Option String → String
  | some s => s
  | none => "None"

/-- One tier wrapped in its tag pair, as built by the f-strings of
_build_augmented_messages. -/
def wrapTag (tag body : String) : String :=
  "<" ++ tag ++ ">\n" ++ body ++ "\n</" ++ tag ++ ">"

/-- _build_augmented_messages of routes/chat.py, over the request messages
and the outcomes of the three parallel memory fetches. -/
def buildAugmentedMessages (messages : List ChatMessage)
    (workingRes : Fetched (List ChatMessage))
    (recallRes archivalRes : Fetched String) : List ChatMessage :=
  let sysSplit := splitSystem messages
  let systemMsg := sysSplit.1
  let nonSystem := sysSplit.2
  let userQuery := findUserQuery nonSystem
  if userQuery == "" then messages
  else
    let priorTurns := fetchedOr [] workingRes
    let recallContext := fetchedOr "" recallRes
    let archivalContext := fetchedOr "" archivalRes
    let contextParts :=
      (if !(archivalContext == "") then [wrapTag "archival_memory" archivalContext] else []) ++
        (if !(recallContext == "") then [wrapTag "recall_memory" recallContext] else [])
    let head :=
      if !contextParts.isEmpty then
        let memoryBlock := String.intercalate "\n\n" contextParts
        match systemMsg with
        | some sm =>
          [(⟨Role.system,
             some (pyFmtOptStr sm.content ++ "\n\n--- Relevant Memory ---\n" ++ memoryBlock),
             none⟩ : ChatMessage)]
        | none =>
          [(⟨Role.system, some ("--- Relevant Memory ---\n" ++ memoryBlock), none⟩ : ChatMessage)]
      else
        match systemMsg with
        | some sm => [sm]
        | none => []
    let history := if priorTurns.isEmpty then [] else priorTurns.dropLast
    head ++ history ++ nonSystem

/-! ## Streaming proxy (chat_completion_stream of services/ollama_proxy.py) -/

/-- One line of the backend newline-delimited JSON stream, after the strip
and json.loads of the source: a blank line, or a parsed object with its
message.content and done fields. -/
inductive BackendLine
  | blank
  | json (content : String) (done : Bool)
  deriving DecidableEq, Repr

structure StreamDelta where
  role : Option String := none
  content : Option String := none
  deriving DecidableEq, Repr

/-- One SSE data chunk: ChatCompletionChunk of models.py restricted to the
fields the stream writer sets. -/
structure StreamChunk where
  id : String
  created : Nat
  model : String
  delta : StreamDelta
  finishReason : Option String := none
  deriving DecidableEq, Repr

/-- One emitted SSE line: a data chunk, or the literal data: [DONE]. -/
inductive SSEItem
  | chunk (c : StreamChunk)
  | doneMarker
  deriving DecidableEq, Repr

def firstChunk (id : String) (created : Nat) (model : String) : StreamChunk :=
  ⟨id, created, model, ⟨some "assistant", none⟩, none⟩

def contentChunk (id : String) (created : Nat) (model : String) (content : String) : StreamChunk :=
  ⟨id, created, model, ⟨none, some content⟩, none⟩

def finalChunk (id : String) (created : Nat) (model : String) : StreamChunk :=
  ⟨id, created, model, ⟨none, none⟩, some "stop"⟩

/-- The line loop of chat_completion_stream: blank lines are skipped, a
line with non-empty content yields one content chunk, and a line with done
set additionally yields the final chunk and the DONE marker and breaks. -/
def streamLines (id : String) (created : Nat) (model : String) :
    List BackendLine → List SSEItem
  | [] => []
  | BackendLine.blank :: rest => streamLines id created model rest
  | BackendLine.json content done :: rest =>
    (if !(content == "") then [SSEItem.chunk (contentChunk id created model content)] else []) ++
      (if done then [SSEItem.chunk (finalChunk id created model), SSEItem.doneMarker]
       else streamLines id created model rest)

/-- chat_completion_stream over an already received backend line sequence.
The id (chatcmpl plus a uuid) and created (time at stream start) are
generated once before the first yield and are parameters here. -/
def chatCompletionStream (id : String) (created : Nat) (model : String)
    (lines : List BackendLine) : List SSEItem :=
  SSEItem.chunk (firstChunk id created model) :: streamLines id created model lines

/-- Whether a parsed backend line carries the done flag that terminates the
stream. -/
def lineDone : BackendLine → Bool
  | BackendLine.blank => false
  | BackendLine.json _ done => done

/-- The non-empty message contents of the backend lines, in order. -/
def lineContents (lines : List BackendLine) : List String :=
  lines.filterMap (fun l =>
    match l with
    | BackendLine.blank => none
    | BackendLine.json content _ => if content == "" then none else some content)

/-! ## Ingest worker (apps/ingest-worker/app/main.py and db.py) -/

inductive JobStatus
  | queued | processing | completed | failed
  deriving DecidableEq, Repr

/-- One row of orchestrator_ingest_jobs, the fields the worker reads or
writes. Timestamps are abstract instants. -/
structure JobRow where
  status : JobStatus
  attempts : Nat
  startedAt : Option Nat := none
  completedAt : Option Nat := none
  error : Option String := none
  result : Option String := none
  deriving DecidableEq, Repr

/-- A job row as the producer inserts it: state queued, zero attempts. -/
def initialJob : JobRow := ⟨JobStatus.queued, 0, none, none, none, none⟩

/-- mark_job_started of db.py: status processing, started_at now,
attempts incremented. -/
def markJobStarted (now : Nat) (j : JobRow) : JobRow :=
  { j with status := JobStatus.processing, startedAt := some now,
           attempts := j.attempts + 1 }

/-- mark_job_completed of db.py. -/
def markJobCompleted (now : Nat) (result : String) (j : JobRow) : JobRow :=
  { j with status := JobStatus.completed, completedAt := some now,
           result := some result }

/-- mark_job_failed of db.py: also sets completed_at. -/
def markJobFailed (now : Nat) (error : String) (j : JobRow) : JobRow :=
  { j with status := JobStatus.failed, completedAt := some now,
           error := some error }

/-- reset_job_queued of db.py: only the status column changes. -/
def resetJobQueued (j : JobRow) : JobRow :=
  { j with status := JobStatus.queued }

/-- The three ways handle_message answers the broker. -/
inductive MsgAction
  | ack | nak | term
  deriving DecidableEq, Repr

/-- Outcome of the dispatch step of handle_message: process_document or
process_codebase either returns a result or raises. -/
inductive ProcessOutcome
  | success (result : String)
  | failure (error : String)
  deriving DecidableEq, Repr

/-- handle_message of main.py for a well-formed payload whose job row
exists. R is settings.max_redeliveries. The attempts value the exception
branch compares is the row value read before mark_job_started, plus one,
exactly as in the source. -/
def handleMessage (R now : Nat) (job : JobRow) (outcome : ProcessOutcome) :
    JobRow × MsgAction :=
  if job.status = JobStatus.completed then (job, MsgAction.ack)
  else
    let j1 := markJobStarted now job
    match outcome with
    | ProcessOutcome.success result => (markJobCompleted now result j1, MsgAction.ack)
    | ProcessOutcome.failure error =>
      let attempts := job.attempts + 1
      if attempts ≥ R then (markJobFailed now error j1, MsgAction.term)
      else (resetJobQueued (markJobFailed now error j1), MsgAction.nak)

/-- Whether the broker still owes a delivery of the one queue message the
producer published for this job. -/
inductive MsgState
  | pending | resolved
  deriving DecidableEq, Repr

structure WorkerState where
  job : JobRow
  msg : MsgState
  deriving DecidableEq, Repr

def initialWorkerState : WorkerState := ⟨initialJob, MsgState.pending⟩

/-- One delivery of the queue message. Under the at-least-once contract the
ack, nak or term takes effect only when the ack-wait window has not run out
during handling; expired records that it has, in which case the broker
redelivers later regardless of the answer. The consumer created by
pull_subscribe in main.py sets no max_deliver, so the broker itself never
stops redelivering a still-pending message. -/
structure Delivery where
  now : Nat
  outcome : ProcessOutcome
  expired : Bool
  deriving Repr

/-- The job-row and message effect of one delivery; a resolved message is
never delivered again. -/
def deliverStep (R : Nat) (st : WorkerState) (d : Delivery) : WorkerState :=
  match st.msg with
  | MsgState.resolved => st
  | MsgState.pending =>
    let handled := handleMessage R d.now st.job d.outcome
    let msg2 :=
      if d.expired then MsgState.pending
      else
        match handled.2 with
        | MsgAction.ack => MsgState.resolved
        | MsgAction.term => MsgState.resolved
        | MsgAction.nak => MsgState.pending
    ⟨handled.1, msg2⟩

def runWorker (R : Nat) (ds : List Delivery) : WorkerState :=
  ds.foldl (deliverStep R) initialWorkerState

/-! ## Archive unpacker (processor.py) -/

def skipDirs : List String :=
  ["__pycache__", ".git", ".svn", ".hg", "node_modules", ".tox", ".venv",
   "venv", ".mypy_cache", ".pytest_cache", "dist", "build", ".next", "target"]

def skipExtensions : List String :=
  [".pyc", ".pyo", ".so", ".dylib", ".dll", ".o", ".a",
   ".class", ".jar", ".war", ".exe", ".bin",
   ".png", ".jpg", ".jpeg", ".gif", ".ico", ".svg", ".bmp",
   ".woff", ".woff2", ".ttf", ".eot",
   ".zip", ".tar", ".gz", ".bz2", ".xz", ".7z",
   ".lock", ".map"]

def maxFileSize : Nat := 1024 * 1024

def maxFiles : Nat := 2000

/-- Split a character list at every occurrence of one separator character,
keeping empty pieces, the semantics of the library splitOn with a one-character
separator. -/
def splitOnChar (sep : Char) : List Char → List (List Char)
  | [] => [[]]
  | c :: rest =>
    let r := splitOnChar sep rest
    if c == sep then [] :: r else (c :: r.headD []) :: r.tail

/-- PurePosixPath(path).parts: split on slashes, drop empty and single-dot
components, and lead with the root part for an absolute path. -/
def posixParts (path : List Char) : List (List Char) :=
  let pieces := (splitOnChar '/' path).filter
    (fun p => !(p.isEmpty) && !(p == ['.']))
  if path.head? == some '/' then ['/'] :: pieces else pieces

/-- PurePosixPath(path).name: the last component, empty for a bare root. -/
def posixName (path : List Char) : List Char :=
  match (posixParts path).getLast? with
  | some p => if p == ['/'] then [] else p
  | none => []

/-- PurePosixPath(path).suffix per the CPython implementation: the final
component from its last dot on, when that dot is neither leading nor
trailing; empty otherwise. -/
def posixSuffix (path : List Char) : List Char :=
  let nm := posixName path
  let tl := nm.reverse.takeWhile (fun c => !(c == '.'))
  if tl.length = nm.length then []
  else
    let i := nm.length - 1 - tl.length
    if 0 < i ∧ i < nm.length - 1 then nm.drop i else []

/-- _should_skip of processor.py. The size argument is member.size for tar
members and info.file_size for zip entries. -/
def shouldSkip (path : List Char) (size : Nat) : Bool :=
  let parts := posixParts path
  if parts.any (fun p => p.head? == some '.') then true
  else if parts.any (fun p => skipDirs.contains (String.mk p)) then true
  else if skipExtensions.contains (String.mk ((posixSuffix path).map Char.toLower)) then true
  else if size > maxFileSize then true
  else if size == 0 then true
  else false

/-- A tar member: name, the member.isfile() check, and its byte content.
For the regular files the loop reads, member.size equals the length of the
bytes extractfile returns. -/
structure TarMember where
  name : String
  isFile : Bool
  content : List Nat
  deriving Repr

/-- A zip entry: filename, the info.is_dir() check, and the uncompressed
bytes; info.file_size equals their length. -/
structure ZipEntry where
  filename : String
  isDir : Bool
  content : List Nat
  deriving Repr

/-- The tar loop of _extract_archive: iterate the members, keep regular
files that are not skipped, and break once the accumulated list has
reached maxFiles entries (the break check follows the append). -/
def extractTarLoop (acc : List (String × List Nat)) :
    List TarMember → List (String × List Nat)
  | [] => acc
  | m :: rest =>
    if !m.isFile then extractTarLoop acc rest
    else if shouldSkip m.name.toList m.content.length then extractTarLoop acc rest
    else
      let acc2 := acc ++ [(m.name, m.content)]
      if acc2.length ≥ maxFiles then acc2 else extractTarLoop acc2 rest

/-- The zip loop of _extract_archive, same shape as the tar loop. -/
def extractZipLoop (acc : List (String × List Nat)) :
    List ZipEntry → List (String × List Nat)
  | [] => acc
  | e :: rest =>
    if e.isDir then extractZipLoop acc rest
    else if shouldSkip e.filename.toList e.content.length then extractZipLoop acc rest
    else
      let acc2 := acc ++ [(e.filename, e.content)]
      if acc2.length ≥ maxFiles then acc2 else extractZipLoop acc2 rest

/-- The parsed form of the archive bytes: a tar member list, a zip entry
list, a parse failure (TarError or BadZipFile, giving the empty result), or
a filename whose suffix matches neither archive family. -/
inductive ParsedArchive
  | tarOf (members : List TarMember)
  | zipOf (entries : List ZipEntry)
  | formatError
  | unrecognized
  deriving Repr

/-- _extract_archive of processor.py over the parsed archive. -/
def extractArchive : ParsedArchive → List (String × List Nat)
  | ParsedArchive.tarOf ms => extractTarLoop [] ms
  | ParsedArchive.zipOf es => extractZipLoop [] es
  | ParsedArchive.formatError => []
  | ParsedArchive.unrecognized => []

/-! ## Document and codebase ingest routes (routes/documents.py) -/

/-- Python s or d on an optional string: d when missing or empty. -/
def pyOrStr (v : Option String) (d : String) : String :=
  match v with
  | some s => if s == "" then d else s
  | none => d

/-- The FastAPI Header(default="default") resolution of X-Workspace. -/
def headerWorkspace (xWorkspace : Option String) : String :=
  xWorkspace.getD "default"

/-- One row of orchestrator_documents as the two ingest routes insert it. -/
structure DocumentRow where
  id : String
  workspace : String
  fileName : String
  contentType : Option String
  compressedBlob : List Nat
  originalSize : Nat
  metadata : Option String := none
  deriving Repr

/-- One row of orchestrator_ingest_jobs as the two ingest routes insert it
(the remaining columns take their schema defaults). -/
structure JobInsert where
  id : String
  docId : String
  workspace : String
  jobType : String
  status : String
  deriving Repr

/-- DocumentIngestResponse of models.py. -/
structure DocumentIngestResponse where
  docId : String
  jobId : String
  fileName : String
  workspace : String
  originalSize : Nat
  compressedSize : Nat
  status : String
  deriving Repr

/-- CodebaseIngestResponse of models.py. -/
structure CodebaseIngestResponse where
  docId : String
  jobId : String
  workspace : String
  archiveName : String
  originalSize : Nat
  compressedSize : Nat
  status : String
  deriving Repr

/-- ingest_document of routes/documents.py. compress stands for
gzip.compress; docId and jobId are the two fresh uuids. -/
def ingestDocument (compress : List Nat → List Nat) (docId jobId : String)
    (fileName : Option String) (contentType : Option String)
    (fileContent : List Nat) (xWorkspace : Option String) :
    DocumentRow × JobInsert × DocumentIngestResponse :=
  let workspace := headerWorkspace xWorkspace
  let nm := pyOrStr fileName "unknown"
  let compressed := compress fileContent
  (⟨docId, workspace, nm, contentType, compressed, fileContent.length, none⟩,
   ⟨jobId, docId, workspace, "document", "queued"⟩,
   ⟨docId, jobId, nm, workspace, fileContent.length, compressed.length, "queued"⟩)

/-- ingest_codebase of routes/documents.py. -/
def ingestCodebase (compress : List Nat → List Nat) (docId jobId : String)
    (fileName : Option String) (contentType : Option String)
    (archiveBytes : List Nat) (xWorkspace : Option String) :
    DocumentRow × JobInsert × CodebaseIngestResponse :=
  let workspace := headerWorkspace xWorkspace
  let archiveName := pyOrStr fileName "codebase.tar.gz"
  let compressed := compress archiveBytes
  (⟨docId, workspace, archiveName, some (pyOrStr contentType "application/gzip"),
    compressed, archiveBytes.length, some "\x7b\"type\": \"codebase\"\x7d"⟩,
   ⟨jobId, docId, workspace, "codebase", "queued"⟩,
   ⟨docId, jobId, workspace, archiveName, archiveBytes.length, compressed.length, "queued"⟩)

/-! ## Code extractor (apps/code-preprocessor/app/parser.py) -/

/-- Entity of the preprocessor models.py; kind is one of module, class,
interface, function, method. -/
structure Entity where
  name : String
  kind : String
  filePath : String
  lineStart : Nat
  lineEnd : Nat
  signature : Option String := none
  docstring : Option String := none
  parent : Option String := none
  deriving DecidableEq, Repr

/-- Relationship of the preprocessor models.py; kind is one of contains,
calls, imports, extends, implements. -/
structure Relationship where
  source : String
  target : String
  kind : String
  deriving DecidableEq, Repr

/-- A tree-sitter syntax node: node type, start and end point rows, start
and end byte offsets, the node text, and the child list. Byte offsets index
the source modelled as a character list. -/
inductive TSNode where
  | mk (ntype : String) (startRow endRow startByte endByte : Nat)
       (text : String) (children : List TSNode)

def TSNode.ntype : TSNode → String
  | TSNode.mk t _ _ _ _ _ _ => t

def TSNode.startRow : TSNode → Nat
  | TSNode.mk _ r _ _ _ _ _ => r

def TSNode.endRow : TSNode → Nat
  | TSNode.mk _ _ r _ _ _ _ => r

def TSNode.startByte : TSNode → Nat
  | TSNode.mk _ _ _ b _ _ _ => b

def TSNode.endByte : TSNode → Nat
  | TSNode.mk _ _ _ _ b _ _ => b

def TSNode.text : TSNode → String
  | TSNode.mk _ _ _ _ _ tx _ => tx

def TSNode.children : TSNode → List TSNode
  | TSNode.mk _ _ _ _ _ _ cs => cs

/-- The per-language class-like node kinds (_CLASS_TYPES). -/
def classTypes : String → List String
  | "python" => ["class_definition"]
  | "javascript" => ["class_declaration"]
  | "typescript" => ["class_declaration", "interface_declaration"]
  | "go" => ["type_declaration"]
  | "rust" => ["struct_item", "enum_item", "trait_item", "impl_item"]
  | "java" => ["class_declaration", "interface_declaration", "enum_declaration"]
  | "c" => ["struct_specifier"]
  | "cpp" => ["class_specifier", "struct_specifier"]
  | _ => []

/-- The per-language function-like node kinds (_FUNC_TYPES). -/
def funcTypes : String → List String
  | "python" => ["function_definition"]
  | "javascript" => ["function_declaration", "arrow_function", "method_definition"]
  | "typescript" => ["function_declaration", "arrow_function", "method_definition"]
  | "go" => ["function_declaration", "method_declaration"]
  | "rust" => ["function_item"]
  | "java" => ["method_declaration", "constructor_declaration"]
  | "c" => ["function_definition"]
  | "cpp" => ["function_definition"]
  | _ => []

/-- The per-language import-like node kinds (_IMPORT_TYPES). -/
def importTypes : String → List String
  | "python" => ["import_statement", "import_from_statement"]
  | "javascript" => ["import_statement"]
  | "typescript" => ["import_statement"]
  | "go" => ["import_declaration"]
  | "rust" => ["use_declaration"]
  | "java" => ["import_declaration"]
  | "c" => ["preproc_include"]
  | "cpp" => ["preproc_include"]
  | _ => []

/-- The languages registered in languages.py. -/
def supportedLanguages : List String :=
  ["python", "javascript", "typescript", "go", "rust", "java", "c", "cpp"]

/-- Whether pat is an initial segment of s, Python str.startswith. -/
def startsWithChars : List Char → List Char → Bool
  | [], _ => true
  | _ :: _, [] => false
  | p :: ps, c :: cs => p == c && startsWithChars ps cs

/-- Python pat in s substring check over character lists. -/
def containsChars (pat : List Char) : List Char → Bool
  | [] => pat.isEmpty
  | c :: rest => startsWithChars pat (c :: rest) || containsChars pat rest

/-- Split at every occurrence of a multi-character pattern, scanning left
to right without overlap. The step bound equals the input length; every
recursion step consumes at least one character, so it never runs out. -/
def splitOnAuxL (pat : List Char) : Nat → List Char → List (List Char)
  | _, [] => [[]]
  | 0, s => [s]
  | steps + 1, c :: rest =>
    if startsWithChars pat (c :: rest) then
      [] :: splitOnAuxL pat steps ((c :: rest).drop pat.length)
    else
      match splitOnAuxL pat steps rest with
      | [] => [[c]]
      | h :: t => (c :: h) :: t

/-- Python s.split(pat) for a non-empty pattern; for the empty pattern the
whole input, matching the library splitOn. -/
def splitOnL (pat s : List Char) : List (List Char) :=
  if pat.isEmpty then [s] else splitOnAuxL pat s.length s

/-- Python s.replace(pat, empty): remove every occurrence. -/
def removeAllL (pat s : List Char) : List Char :=
  (splitOnL pat s).flatten

/-- Python pat in s substring check, on strings. -/
def strContains (s pat : String) : Bool := containsChars pat.toList s.toList

/-- Strip the characters matching p from both ends, the Python
str.strip(chars) shape. -/
def stripEnds (p : Char → Bool) (s : List Char) : List Char :=
  ((s.dropWhile p).reverse.dropWhile p).reverse

/-- Strip the characters matching p from the right end only, Python
str.rstrip(chars). -/
def rstripEnds (p : Char → Bool) (s : List Char) : List Char :=
  (s.reverse.dropWhile p).reverse

/-- Python source slicing src a:b over the character-list model. -/
def sliceChars (src : List Char) (a b : Nat) : List Char :=
  (src.take b).drop a

/-- _get_name of parser.py: the text of the first identifier-like child,
or the recursive name of the first type_spec child reached first. -/
def getNameList : List TSNode → Option String
  | [] => none
  | TSNode.mk t _ _ _ _ tx cs :: rest =>
    if t = "identifier" ∨ t = "type_identifier" ∨ t = "name" then some tx
    else if t = "type_spec" then getNameList cs
    else getNameList rest

def getName (n : TSNode) : Option String := getNameList n.children

/-- The body-block node kinds _get_signature stops at. -/
def bodyTypes : List String :=
  ["block", "compound_statement", "statement_block", "class_body",
   "field_declaration_list", "declaration_list"]

/-- _get_signature of parser.py: source text from the node start byte up to
its first body-block child, stripped; with no body child, the first line of
the node text, stripped. -/
def getSignature (src : List Char) (n : TSNode) : String :=
  match n.children.find? (fun c => bodyTypes.contains c.ntype) with
  | some c => String.mk (pyStrip (sliceChars src n.startByte c.startByte))
  | none =>
    let text := sliceChars src n.startByte n.endByte
    String.mk (pyStrip (text.takeWhile (fun ch => !(ch == '\n'))))

/-- _get_docstring of parser.py. For python: the first string child of the
first expression_statement of the first block child, stripped of quote
characters and truncated to 200. For the other languages: the text of the
immediately preceding comment sibling, stripped of comment delimiters and
truncated to 200. -/
def getDocstring (language : String) (prev : Option TSNode) (n : TSNode) :
    Option String :=
  if language = "python" then
    match n.children.find? (fun c => c.ntype = "block") with
    | some blk =>
      match blk.children.find? (fun s => s.ntype = "expression_statement") with
      | some stmt =>
        match stmt.children.find? (fun e => e.ntype = "string") with
        | some e =>
          some (String.mk ((stripEnds (fun c => c == '"' || c == '\'') e.text.toList).take 200))
        | none => none
      | none => none
    | none => none
  else if ["javascript", "typescript", "java", "c", "cpp", "go", "rust"].contains language then
    match prev with
    | some p =>
      if ["comment", "block_comment", "line_comment"].contains p.ntype then
        some (String.mk ((stripEnds (fun c => c == '/' || c == '*' || c == ' ' || c == '\n') p.text.toList).take 200))
      else none
    | none => none
  else none

/-- _extract_inheritance of parser.py: extends and implements
relationships whose source is the class name. -/
def extractInheritance (language className : String) (n : TSNode)
    (rels : List Relationship) : List Relationship :=
  if language = "python" then
    n.children.foldl
      (fun acc c =>
        if c.ntype = "argument_list" then
          c.children.foldl
            (fun acc2 a =>
              if a.ntype = "identifier" then acc2 ++ [⟨className, a.text, "extends"⟩]
              else acc2) acc
        else acc) rels
  else if language = "java" ∨ language = "typescript" ∨ language = "javascript" then
    n.children.foldl
      (fun acc c =>
        if c.ntype = "superclass" then
          match getName c with
          | some nm => acc ++ [⟨className, nm, "extends"⟩]
          | none => acc
        else if c.ntype = "super_interfaces" then
          c.children.foldl
            (fun acc2 i =>
              if i.ntype = "type_identifier" ∨ i.ntype = "identifier" then
                acc2 ++ [⟨className, i.text, "implements"⟩]
              else acc2) acc
        else acc) rels
  else rels

/-- Split at every character matching p, keeping empty pieces. -/
def splitWhen (p : Char → Bool) : List Char → List (List Char)
  | [] => [[]]
  | c :: rest =>
    let r := splitWhen p rest
    if p c then [] :: r else (c :: r.headD []) :: r.tail

/-- Python str.split() with no argument: split on whitespace, no empty
pieces. -/
def pySplitWs (s : List Char) : List (List Char) :=
  (splitWhen pyWhitespace s).filter (fun p => !p.isEmpty)

/-- _parse_import_target of parser.py. -/
def parseImportTarget (text language : String) : Option String :=
  let t := text.toList
  if language = "python" then
    if startsWithChars "from ".toList t then
      match pySplitWs t with
      | _ :: p :: _ => some (String.mk p)
      | _ => none
    else if startsWithChars "import ".toList t then
      some (String.mk (pyStrip ((splitOnL [','] (removeAllL "import ".toList t)).headD [])))
    else none
  else if language = "javascript" ∨ language = "typescript" then
    if containsChars "from ".toList t then
      some (String.mk (stripEnds (fun c => c == '"' || c == '\'' || c == ';')
        (pyStrip ((splitOnL "from".toList t).getLast?.getD []))))
    else none
  else if language = "go" then
    ((splitOnChar '"' t).find?
      (fun p => p.contains '/' || (!p.isEmpty && p.all Char.isAlpha))).map String.mk
  else if language = "rust" then
    some (String.mk ((splitOnL "::".toList
      (rstripEnds (fun c => c == ';') (removeAllL "use ".toList t))).headD []))
  else if language = "java" then
    some (String.mk (pyStrip (rstripEnds (fun c => c == ';') (removeAllL "import ".toList t))))
  else if language = "c" ∨ language = "cpp" then
    if t.contains '<' then
      some (String.mk ((splitOnChar '>' (((splitOnChar '<' t).drop 1).headD [])).headD []))
    else if t.contains '"' then
      some (String.mk ((splitOnChar '"' (((splitOnChar '"' t).drop 1).headD [])).headD []))
    else none
  else none

/-- The entity and relationship accumulators threaded through _extract. -/
structure ExtractState where
  entities : List Entity
  rels : List Relationship
  deriving DecidableEq, Repr

/-- The is_method test of the function branch: a non-empty parent name
that names an already-emitted class or interface entity. -/
def isMethodCheck (parent : String) (entities : List Entity) : Bool :=
  !(parent == "") &&
    entities.any (fun e => (e.kind == "class" || e.kind == "interface") && e.name == parent)

mutual
/-- The body of the _extract loop of parser.py for one child. A class-like
child emits a class or interface entity, a contains relationship from the
current parent and its inheritance relationships, then is recursed into
with the class as parent; a function-like child emits a function or method
entity and a contains relationship; an import-like child emits an imports
relationship when a non-empty target parses; any other child with children
is recursed into with the unchanged parent. -/
def extractChild (language : String) (src : List Char) (filePath parent : String)
    (st : ExtractState) (prev : Option TSNode) : TSNode → ExtractState
  | TSNode.mk nty sr er sb eb tx ccs =>
    let c := TSNode.mk nty sr er sb eb tx ccs
    if (classTypes language).contains nty then
      match getName c with
      | none => st
      | some nm =>
        let kind := if strContains nty "interface" then "interface" else "class"
        let docstring := getDocstring language prev c
        let stA : ExtractState :=
          ⟨st.entities ++ [⟨nm, kind, filePath, sr + 1, er + 1, none, docstring, some parent⟩],
           st.rels ++ [⟨parent, nm, "contains"⟩]⟩
        let relsB := extractInheritance language nm c stA.rels
        extractChildren language src filePath nm ⟨stA.entities, relsB⟩ none ccs
    else if (funcTypes language).contains nty then
      match getName c with
      | none => st
      | some nm =>
        let isMethod := isMethodCheck parent st.entities
        let kind := if isMethod then "method" else "function"
        let sig := getSignature src c
        let docstring := getDocstring language prev c
        let entName := if isMethod then parent ++ "." ++ nm else nm
        ⟨st.entities ++ [⟨entName, kind, filePath, sr + 1, er + 1, some sig, docstring, some parent⟩],
         st.rels ++ [⟨parent, nm, "contains"⟩]⟩
    else if (importTypes language).contains nty then
      let impText := String.mk (pyStrip (sliceChars src sb eb))
      match parseImportTarget impText language with
      | some tgt =>
        if tgt == "" then st else ⟨st.entities, st.rels ++ [⟨parent, tgt, "imports"⟩]⟩
      | none => st
    else
      if ccs.length > 0 then extractChildren language src filePath parent st none ccs
      else st

/-- _extract of parser.py: the loop over node.children, threading the
accumulated entities and relationships and the previous sibling through
the per-child body. -/
def extractChildren (language : String) (src : List Char) (filePath parent : String)
    (st : ExtractState) (prev : Option TSNode) : List TSNode → ExtractState
  | [] => st
  | c :: rest =>
    extractChildren language src filePath parent
      (extractChild language src filePath parent st prev c) (some c) rest
end

/-- _extract applied to one node: iterate its children. -/
def extractNode (language : String) (src : List Char) (filePath parent : String)
    (st : ExtractState) (n : TSNode) : ExtractState :=
  extractChildren language src filePath parent st none n.children

/-- ParseResult of the preprocessor models.py, without the rendered
natural-language document. -/
structure ParseResult where
  filePath : String
  language : String
  entities : List Entity
  relationships : List Relationship
  deriving Repr

/-- parse_file of parser.py over the already-parsed syntax tree: reject an
unsupported language, emit the module entity spanning line 1 to the
newline count plus one, then run _extract from the root with the module
name as parent. -/
def parseFile (filePath : String) (content : List Char) (language : String)
    (root : TSNode) : Option ParseResult :=
  if supportedLanguages.contains language then
    let moduleName := String.mk ((splitOnChar '/' filePath.toList).getLast?.getD filePath.toList)
    let moduleEntity : Entity :=
      ⟨moduleName, "module", filePath, 1, content.countP (fun c => c == '\n') + 1,
       none, none, none⟩
    let st := extractNode language content filePath moduleName ⟨[moduleEntity], []⟩ root
    some ⟨filePath, language, st.entities, st.rels⟩
  else none

/-- Structural well-formedness a tree-sitter tree guarantees: every node
spans a non-decreasing row range. -/
def wfNodes : List TSNode → Bool
  | [] => true
  | TSNode.mk _ sr er _ _ _ cs :: rest =>
    decide (sr ≤ er) && wfNodes cs && wfNodes rest

def TSNode.wf (n : TSNode) : Bool :=
  decide (n.startRow ≤ n.endRow) && wfNodes n.children

/-! # Theorems -/

/-! ## General helpers -/

theorem dropWhile_eq_self_of_false {p : Char → Bool} (l : List Char)
    (h : ∀ c ∈ l, p c = false) : l.dropWhile p = l := by
  cases l with
  | nil => rfl
  | cons a t =>
    have ha := h a (by simp)
    simp [List.dropWhile_cons, ha]

theorem map_eq_self_of_fix {α : Type} (f : α → α) (l : List α)
    (h : ∀ c ∈ l, f c = c) : l.map f = l := by
  induction l with
  | nil => rfl
  | cons a t ih =>
    simp only [List.map_cons, h a (by simp), List.cons.injEq, true_and]
    exact ih (fun c hc => h c (by simp [hc]))

/-! ## C3: workspace sanitizer -/

theorem allowed_not_whitespace {c : Char} (h : allowedChar c = true) :
    pyWhitespace c = false := by
  cases hw : pyWhitespace c with
  | false => rfl
  | true =>
    exfalso
    unfold allowedChar at h
    simp only [Bool.or_eq_true, Bool.and_eq_true, decide_eq_true_eq, beq_iff_eq] at h
    rcases h with ((((⟨h1, h2⟩ | ⟨h1, h2⟩) | ⟨h1, h2⟩) | h) | h)
    · unfold pyWhitespace at hw
      simp only [Bool.or_eq_true, Bool.and_eq_true, decide_eq_true_eq, beq_iff_eq] at hw
      omega
    · unfold pyWhitespace at hw
      simp only [Bool.or_eq_true, Bool.and_eq_true, decide_eq_true_eq, beq_iff_eq] at hw
      omega
    · unfold pyWhitespace at hw
      simp only [Bool.or_eq_true, Bool.and_eq_true, decide_eq_true_eq, beq_iff_eq] at hw
      omega
    · subst h; exact absurd hw (by decide)
    · subst h; exact absurd hw (by decide)

theorem sanitize_matches (s : List Char) : matchesWorkspaceRegex (sanitize s) = true := by
  unfold sanitize
  cases hemp : (((pyStrip s).map (fun c => if allowedChar c then c else '-')).take 64).isEmpty with
  | true => simp only [hemp, if_true]; decide
  | false =>
    simp only [hemp, Bool.false_eq_true, if_false]
    have hsub : ∀ c ∈ ((pyStrip s).map (fun c => if allowedChar c then c else '-')).take 64,
        allowedChar c = true := by
      intro c hc
      obtain ⟨c0, _, hc0⟩ := List.mem_map.mp (List.mem_of_mem_take hc)
      by_cases h0 : allowedChar c0 = true
      · rw [← hc0]; simp [h0]
      · rw [← hc0, if_neg h0]; decide
    unfold matchesWorkspaceRegex
    simp only [Bool.and_eq_true, List.all_eq_true, decide_eq_true_eq, Bool.not_eq_true',
      List.length_take]
    exact ⟨⟨hemp, by omega⟩, hsub⟩

theorem sanitize_fixed (s : List Char) (h : matchesWorkspaceRegex s = true) :
    sanitize s = s := by
  unfold matchesWorkspaceRegex at h
  simp only [Bool.and_eq_true, List.all_eq_true, decide_eq_true_eq, Bool.not_eq_true'] at h
  obtain ⟨⟨hne, hlen⟩, hall⟩ := h
  have hw : ∀ c ∈ s, pyWhitespace c = false := fun c hc => allowed_not_whitespace (hall c hc)
  have hstrip : pyStrip s = s := by
    unfold pyStrip
    rw [dropWhile_eq_self_of_false s hw,
      dropWhile_eq_self_of_false s.reverse (fun c hc => hw c (List.mem_reverse.mp hc)),
      List.reverse_reverse]
  unfold sanitize
  simp only [hstrip,
    map_eq_self_of_fix (fun c => if allowedChar c = true then c else '-') s
      (fun c hc => if_pos (hall c hc)),
    List.take_of_length_le hlen]
  simp [hne]

/-- C3: for every input, the workspace sanitizer returns a non-empty string
matching the anchored class regex of one to 64 allowed characters, and
every input already matching the regex is returned unchanged. -/
theorem C3_sanitize_regex (s : List Char) :
    matchesWorkspaceRegex (sanitize s) = true ∧
      (matchesWorkspaceRegex s = true → sanitize s = s) :=
  ⟨sanitize_matches s, fun h => sanitize_fixed s h⟩

/-- Witness for C3 at two concrete inputs. -/
theorem C3_sanitize_regex_witness :
    matchesWorkspaceRegex (sanitize "hi there!".toList) = true ∧
      sanitize "abc".toList = "abc".toList :=
  ⟨(C3_sanitize_regex "hi there!".toList).1,
   (C3_sanitize_regex "abc".toList).2 (by decide)⟩

/-! ## C9: ingest routes store the workspace header verbatim -/

/-- C9: for both ingest endpoints, the workspace stored on the document row
and the job row and returned in the response body is the X-Workspace header
value verbatim, default when the header is absent, with no sanitization
applied; the final conjunct exhibits a header value the workspace regex
rejects together with the default fallback. -/
theorem C9_ingest_workspace_verbatim (compress : List Nat → List Nat)
    (docId jobId : String) (fileName contentType : Option String)
    (content : List Nat) (h : Option String) :
    ((ingestDocument compress docId jobId fileName contentType content h).1.workspace
        = headerWorkspace h ∧
      (ingestDocument compress docId jobId fileName contentType content h).2.1.workspace
        = headerWorkspace h ∧
      (ingestDocument compress docId jobId fileName contentType content h).2.2.workspace
        = headerWorkspace h) ∧
      ((ingestCodebase compress docId jobId fileName contentType content h).1.workspace
          = headerWorkspace h ∧
        (ingestCodebase compress docId jobId fileName contentType content h).2.1.workspace
          = headerWorkspace h ∧
        (ingestCodebase compress docId jobId fileName contentType content h).2.2.workspace
          = headerWorkspace h) ∧
      (headerWorkspace (some "a workspace!") = "a workspace!" ∧
        matchesWorkspaceRegex "a workspace!".toList = false ∧
        headerWorkspace none = "default") :=
  ⟨⟨rfl, rfl, rfl⟩, ⟨rfl, rfl, rfl⟩, rfl, by decide, rfl⟩

/-! ## C10: only the last user message of a request is persisted -/

theorem getLast?_cons_or {α : Type} (m : α) (l : List α) (a : Option α) :
    ((m :: l).getLast?).or a = (l.getLast?).or (some m) := by
  cases l with
  | nil => rfl
  | cons b t =>
    rw [List.getLast?_cons_cons]
    have hs : (b :: t).getLast?.isSome := List.getLast?_isSome.mpr (by simp)
    obtain ⟨x, hx⟩ := Option.isSome_iff_exists.mp hs
    rw [hx]
    rfl

theorem lastUser_foldl (msgs : List ChatMessage) :
    ∀ a : Option ChatMessage,
      msgs.foldl (fun acc m => if m.role = Role.user then some m else acc) a
        = ((msgs.filter (fun m => m.role == Role.user)).getLast?).or a := by
  induction msgs with
  | nil => intro a; rfl
  | cons m t ih =>
    intro a
    rw [List.foldl_cons, ih]
    by_cases hm : m.role = Role.user
    · rw [if_pos hm, List.filter_cons, if_pos (by simp [hm]), getLast?_cons_or]
    · rw [if_neg hm, List.filter_cons, if_neg (by simp [hm])]

/-- C10: before the backend call at most one incoming message is persisted:
the last user-role message of the request, if any, is appended to both the
short-term buffer and the persistent log, and no other incoming message
reaches either store. -/
theorem C10_store_incoming (st : SessionStores) (req : List ChatMessage) :
    (storeIncoming st req).shortTerm = st.shortTerm ++ (lastUserMessage req).toList ∧
      (storeIncoming st req).persistent = st.persistent ++ (lastUserMessage req).toList ∧
      lastUserMessage req = (req.filter (fun m => m.role == Role.user)).getLast? := by
  refine ⟨?_, ?_, ?_⟩
  · unfold storeIncoming
    cases h : lastUserMessage req <;> simp
  · unfold storeIncoming
    cases h : lastUserMessage req <;> simp
  · unfold lastUserMessage
    rw [lastUser_foldl]
    simp

/-! ## C8: completed jobs are terminal and idempotent to redelivery -/

theorem foldl_deliver_completed (R : Nat) :
    ∀ (ds : List Delivery) (st : WorkerState),
      st.job.status = JobStatus.completed →
      (ds.foldl (deliverStep R) st).job = st.job := by
  intro ds
  induction ds with
  | nil => intro st _; rfl
  | cons d t ih =>
    intro st h
    rw [List.foldl_cons]
    have hstep : (deliverStep R st d).job = st.job := by
      unfold deliverStep
      cases hm : st.msg with
      | resolved => rfl
      | pending => simp [handleMessage, h]
    rw [ih _ (by rw [hstep]; exact h), hstep]

/-- C8: a delivery whose job row is already completed changes no field of
the row and acknowledges; and handling any further sequence of deliveries
from a completed row leaves the row unchanged. -/
theorem C8_completed_idempotent (R now : Nat) (job : JobRow)
    (outcome : ProcessOutcome) (h : job.status = JobStatus.completed)
    (ds : List Delivery) (st : WorkerState)
    (hst : st.job.status = JobStatus.completed) :
    handleMessage R now job outcome = (job, MsgAction.ack) ∧
      (ds.foldl (deliverStep R) st).job = st.job := by
  constructor
  · unfold handleMessage
    rw [if_pos h]
  · exact foldl_deliver_completed R ds st hst

/-- Witness for C8: a completed row with two attempts survives a failing
redelivery and an expired successful one untouched, answering ack. -/
theorem C8_completed_idempotent_witness :
    handleMessage 3 7 ⟨JobStatus.completed, 2, some 1, some 2, none, some "r"⟩
        (ProcessOutcome.failure "e")
      = (⟨JobStatus.completed, 2, some 1, some 2, none, some "r"⟩, MsgAction.ack) ∧
      (([⟨5, ProcessOutcome.failure "e", false⟩, ⟨6, ProcessOutcome.success "r", true⟩] :
          List Delivery).foldl (deliverStep 3)
          ⟨⟨JobStatus.completed, 2, some 1, some 2, none, some "r"⟩, MsgState.pending⟩).job
        = (⟨⟨JobStatus.completed, 2, some 1, some 2, none, some "r"⟩,
            MsgState.pending⟩ : WorkerState).job :=
  C8_completed_idempotent 3 7 _ _ rfl _ _ rfl

/-! ## C1: which store supplies the promotion turn count -/

/-- C1 counterexample: with the default thresholds ten and twenty, after
one chat turn, a TTL expiry of the short-term key, and four more turns,
the final turn hands maybe_promote a count of eight while the persistent
message log holds ten rows; the persistent count meets the promote
condition, yet summarize_and_store does not run, because get_turn_count
reads the Redis short-term list, not the orchestrator_messages rows. -/
theorem C1_turncount_cex :
    (let ev := SessionEv.turn [(⟨Role.user, some "hi", none⟩ : ChatMessage)]
        (some ⟨Role.assistant, some "yo", none⟩);
     let st := runSession 10 20 [ev, SessionEv.ttlExpiry, ev, ev, ev];
     let r := chatTurn 10 20 st [(⟨Role.user, some "hi", none⟩ : ChatMessage)]
        (some ⟨Role.assistant, some "yo", none⟩);
     r.2.1 = 8 ∧ r.1.persistent.length = 10 ∧
       ¬ r.2.1 = r.1.persistent.length ∧
       r.1.persistent.length ≥ 10 ∧ r.1.persistent.length % 10 = 0 ∧
       r.2.2.1 = false) := by
  decide

/-- C1 amended: the turn count compared against both thresholds is the
length of the Redis short-term buffer after the assistant append (not the
persistent log); summarize_and_store runs exactly when that count reaches
the promote threshold and divides it evenly, promote_to_archival likewise
for the archive threshold; and on the streaming path the check is skipped
entirely when the collected assistant response is empty. -/
theorem C1_turncount_amended (P A : Nat) (st : SessionStores)
    (req : List ChatMessage) (resp : Option ChatMessage)
    (st2 : SessionStores) (full : String) (t : Nat) (d : Bool × Bool) :
    ((chatTurn P A st req resp).2.1 = (chatTurn P A st req resp).1.shortTerm.length ∧
      ((chatTurn P A st req resp).2.2.1 = true ↔
        ((chatTurn P A st req resp).2.1 ≥ P ∧ (chatTurn P A st req resp).2.1 % P = 0)) ∧
      ((chatTurn P A st req resp).2.2.2 = true ↔
        ((chatTurn P A st req resp).2.1 ≥ A ∧ (chatTurn P A st req resp).2.1 % A = 0))) ∧
      (((streamTail P A st2 full).2 = none ↔ full = "") ∧
        ((streamTail P A st2 full).2 = some (t, d) →
          (t = (streamTail P A st2 full).1.shortTerm.length ∧
            (d.1 = true ↔ (t ≥ P ∧ t % P = 0)) ∧
            (d.2 = true ↔ (t ≥ A ∧ t % A = 0))))) := by
  refine ⟨⟨?_, ?_, ?_⟩, ?_, ?_⟩
  · unfold chatTurn unaryTail
    cases resp <;> simp
  · unfold chatTurn unaryTail maybePromote
    cases resp <;> simp
  · unfold chatTurn unaryTail maybePromote
    cases resp <;> simp
  · unfold streamTail
    by_cases hf : full = ""
    · simp [hf]
    · simp [hf]
  · intro hsome
    by_cases hf : full = ""
    · rw [show (streamTail P A st2 full).2 = none by unfold streamTail; simp [hf]] at hsome
      exact absurd hsome (by simp)
    · have h2 : (streamTail P A st2 full).2
          = some (st2.shortTerm.length + 1,
              maybePromote P A (st2.shortTerm.length + 1)) := by
        unfold streamTail
        rw [if_neg (by simpa using hf)]
        simp
      have h1 : (streamTail P A st2 full).1.shortTerm.length
          = st2.shortTerm.length + 1 := by
        unfold streamTail
        rw [if_neg (by simpa using hf)]
        simp
      rw [h2] at hsome
      have hpair := Option.some.inj hsome
      have ht : st2.shortTerm.length + 1 = t := congrArg Prod.fst hpair
      have hd : maybePromote P A (st2.shortTerm.length + 1) = d :=
        congrArg Prod.snd hpair
      refine ⟨by rw [h1, ht], ?_, ?_⟩
      · rw [← hd, ht]
        unfold maybePromote
        simp
      · rw [← hd, ht]
        unfold maybePromote
        simp

/-- Witness for C1 amended: with promote threshold two and archive
threshold four, one full turn triggers the summarize branch, and the
streaming tail reports the incremented short-term length. -/
theorem C1_turncount_amended_witness :
    (chatTurn 2 4 ⟨[], []⟩ [⟨Role.user, some "q", none⟩]
        (some ⟨Role.assistant, some "a", none⟩)).2.2.1 = true ∧
      2 = (streamTail 2 4 ⟨[⟨Role.user, some "q", none⟩], [⟨Role.user, some "q", none⟩]⟩
          "done").1.shortTerm.length :=
  have h := C1_turncount_amended 2 4 ⟨[], []⟩ [⟨Role.user, some "q", none⟩]
    (some ⟨Role.assistant, some "a", none⟩)
    ⟨[⟨Role.user, some "q", none⟩], [⟨Role.user, some "q", none⟩]⟩ "done" 2
    (maybePromote 2 4 2)
  ⟨(h.1.2.1).mpr (by decide), (h.2.2 (by decide)).1⟩

/-! ## C2: the attempts bound under redelivery -/

/-- C2 counterexample: with max_redeliveries three, two failing deliveries,
a third failing delivery whose ack-wait expired before its terminating
answer took effect, and one successful redelivery leave the job row
completed with four attempts: the bound fails while the status is not
failed. -/
theorem C2_attempts_cex :
    (let r := runWorker 3 [⟨0, ProcessOutcome.failure "boom", false⟩,
        ⟨1, ProcessOutcome.failure "boom", false⟩,
        ⟨2, ProcessOutcome.failure "boom", true⟩,
        ⟨3, ProcessOutcome.success "ok", false⟩];
     ¬ r.job.status = JobStatus.failed ∧ r.job.attempts = 4 ∧
       ¬ r.job.attempts ≤ 3) := by
  decide

theorem foldl_deliver_inv (R : Nat) :
    ∀ (ds : List Delivery) (st : WorkerState), (∀ d ∈ ds, d.expired = false) →
      (st.job.status = JobStatus.queued → st.job.attempts < R) →
      (st.job.status = JobStatus.completed → st.job.attempts ≤ R) →
      (st.job.status = JobStatus.processing → False) →
      (st.job.status = JobStatus.failed → st.msg = MsgState.resolved) →
      ((ds.foldl (deliverStep R) st).job.status = JobStatus.queued →
          (ds.foldl (deliverStep R) st).job.attempts < R) ∧
        ((ds.foldl (deliverStep R) st).job.status = JobStatus.completed →
          (ds.foldl (deliverStep R) st).job.attempts ≤ R) ∧
        ((ds.foldl (deliverStep R) st).job.status = JobStatus.processing → False) ∧
        ((ds.foldl (deliverStep R) st).job.status = JobStatus.failed →
          (ds.foldl (deliverStep R) st).msg = MsgState.resolved) := by
  intro ds
  induction ds with
  | nil => intro st _ h1 h2 h3 h4; exact ⟨h1, h2, h3, h4⟩
  | cons d t ih =>
    intro st hexp h1 h2 h3 h4
    have hde : d.expired = false := hexp d (by simp)
    rw [List.foldl_cons]
    have hstep :
        ((deliverStep R st d).job.status = JobStatus.queued →
          (deliverStep R st d).job.attempts < R) ∧
        ((deliverStep R st d).job.status = JobStatus.completed →
          (deliverStep R st d).job.attempts ≤ R) ∧
        ((deliverStep R st d).job.status = JobStatus.processing → False) ∧
        ((deliverStep R st d).job.status = JobStatus.failed →
          (deliverStep R st d).msg = MsgState.resolved) := by
      unfold deliverStep
      cases hm : st.msg with
      | resolved => exact ⟨h1, h2, h3, h4⟩
      | pending =>
        unfold handleMessage
        by_cases hc : st.job.status = JobStatus.completed
        · simp only [hc, if_true, hde]
          refine ⟨?_, ?_, ?_, ?_⟩
          · intro habs; exact absurd habs (by decide)
          · intro _; exact h2 hc
          · intro habs; exact absurd habs (by decide)
          · intro habs; exact absurd habs (by decide)
        · have hq : st.job.status = JobStatus.queued := by
            cases hst : st.job.status with
            | queued => rfl
            | completed => exact absurd hst hc
            | processing => exact absurd (h3 hst) id
            | failed => rw [h4 hst] at hm; cases hm
          have hlt : st.job.attempts < R := h1 hq
          rw [if_neg hc]
          cases d.outcome with
          | success r =>
            simp only [markJobCompleted, markJobStarted, hde]
            refine ⟨?_, ?_, ?_, ?_⟩
            · intro habs; cases habs
            · intro _; exact hlt
            · intro habs; cases habs
            · intro habs; cases habs
          | failure e =>
            by_cases hge : st.job.attempts + 1 ≥ R
            · simp only [hge, if_true, markJobFailed, markJobStarted, hde]
              refine ⟨?_, ?_, ?_, ?_⟩
              · intro habs; cases habs
              · intro habs; cases habs
              · intro habs; cases habs
              · intro _; rfl
            · simp only [hge, if_false, resetJobQueued, markJobFailed, markJobStarted, hde]
              refine ⟨?_, ?_, ?_, ?_⟩
              · intro _; omega
              · intro habs; cases habs
              · intro habs; cases habs
              · intro habs; cases habs
    exact ih (deliverStep R st d) (fun x hx => hexp x (by simp [hx]))
      hstep.1 hstep.2.1 hstep.2.2.1 hstep.2.2.2

/-- C2 amended: provided every broker answer takes effect before its
ack-wait window runs out (no expired resolutions) and the redelivery bound
is at least one, every reachable job row whose status is not failed has at
most max_redeliveries attempts. -/
theorem C2_attempts_amended (R : Nat) (hR : 1 ≤ R) (ds : List Delivery)
    (hexp : ∀ d ∈ ds, d.expired = false)
    (hnf : ¬ (runWorker R ds).job.status = JobStatus.failed) :
    (runWorker R ds).job.attempts ≤ R := by
  have h := foldl_deliver_inv R ds initialWorkerState hexp
    (fun _ => hR) (fun habs => by cases habs) (fun habs => by cases habs)
    (fun habs => by cases habs)
  unfold runWorker at hnf ⊢
  rcases h with ⟨hq, hc, hp, _⟩
  cases hst : (ds.foldl (deliverStep R) initialWorkerState).job.status with
  | queued => exact Nat.le_of_lt (hq hst)
  | completed => exact hc hst
  | processing => exact absurd (hp hst) id
  | failed => exact absurd hst hnf

/-- Witness for C2 amended: one unexpired failing delivery with bound
three leaves a queued row with one attempt. -/
theorem C2_attempts_amended_witness :
    (runWorker 3 [⟨0, ProcessOutcome.failure "e", false⟩]).job.attempts ≤ 3 :=
  C2_attempts_amended 3 (by decide) _ (by decide) (by decide)

/-! ## C4: memory composer system-message and suffix shape -/

/-- C4 counterexample: a request of two system messages and no non-empty
user message is returned by the composer unchanged, so its output carries
two system entries. -/
theorem C4_composer_cex :
    (buildAugmentedMessages
        [⟨Role.system, some "a", none⟩, ⟨Role.system, some "b", none⟩]
        (Fetched.ok []) (Fetched.ok "") (Fetched.ok "")).countP
        (fun m => m.role == Role.system) = 2 ∧
      ¬ (buildAugmentedMessages
          [⟨Role.system, some "a", none⟩, ⟨Role.system, some "b", none⟩]
          (Fetched.ok []) (Fetched.ok "") (Fetched.ok "")).countP
          (fun m => m.role == Role.system) ≤ 1 := by
  decide

theorem splitSystem_foldl (msgs : List ChatMessage) :
    ∀ (a : Option ChatMessage) (l : List ChatMessage),
      (msgs.foldl
        (fun acc m =>
          if m.role = Role.system then (some m, acc.2) else (acc.1, acc.2 ++ [m]))
        (a, l)).2 = l ++ msgs.filter (fun m => !(m.role == Role.system)) := by
  induction msgs with
  | nil => intro a l; simp
  | cons m t ih =>
    intro a l
    rw [List.foldl_cons]
    by_cases hm : m.role = Role.system
    · rw [if_pos hm, ih, List.filter_cons, if_neg (by simp [hm])]
    · rw [if_neg hm, ih, List.filter_cons, if_pos (by simp [hm])]
      simp

theorem splitSystem_snd (msgs : List ChatMessage) :
    (splitSystem msgs).2 = msgs.filter (fun m => !(m.role == Role.system)) := by
  unfold splitSystem
  rw [show ((none : Option ChatMessage), ([] : List ChatMessage))
      = ((none : Option ChatMessage), ([] : List ChatMessage)) from rfl]
  rw [splitSystem_foldl msgs none []]
  simp

theorem findUserQuery_nonempty (l : List ChatMessage)
    (h : ∃ m ∈ l, m.role = Role.user ∧ contentTruthy m = true) :
    ¬ findUserQuery l = "" := by
  obtain ⟨m, hm, hrole, hct⟩ := h
  unfold findUserQuery
  have hsome : (l.reverse.find? (fun x => x.role == Role.user && contentTruthy x)).isSome := by
    rw [List.find?_isSome]
    exact ⟨m, List.mem_reverse.mpr hm, by simp [hrole, hct]⟩
  obtain ⟨m2, hm2⟩ := Option.isSome_iff_exists.mp hsome
  rw [hm2]
  have hp := List.find?_some hm2
  simp only [Bool.and_eq_true, beq_iff_eq] at hp
  obtain ⟨_, hct2⟩ := hp
  unfold contentTruthy at hct2
  cases hcon : m2.content with
  | none => rw [hcon] at hct2; cases hct2
  | some s =>
    rw [hcon] at hct2
    simp only [Bool.not_eq_true', beq_eq_false_iff_ne, ne_eq] at hct2
    simp [hcon, hct2]

/-- C4 amended: when the request holds a user message with non-empty
content and the short-term history holds no system-role turn, the
composer output has at most one system entry and ends with the original
non-system messages, in order, as a contiguous suffix; a request with no
non-empty user message is instead returned unchanged (the counterexample
case, where several system entries can survive). -/
theorem C4_composer_amended (messages : List ChatMessage)
    (workingRes : Fetched (List ChatMessage)) (recallRes archivalRes : Fetched String)
    (hq : ∃ m ∈ messages, m.role = Role.user ∧ contentTruthy m = true)
    (hh : ∀ m ∈ fetchedOr [] workingRes, ¬ m.role = Role.system) :
    (buildAugmentedMessages messages workingRes recallRes archivalRes).countP
        (fun m => m.role == Role.system) ≤ 1 ∧
      ∃ pre, buildAugmentedMessages messages workingRes recallRes archivalRes
          = pre ++ messages.filter (fun m => !(m.role == Role.system)) := by
  have hsnd := splitSystem_snd messages
  have hq2 : ∃ m ∈ (splitSystem messages).2, m.role = Role.user ∧ contentTruthy m = true := by
    obtain ⟨m, hm, hr, hc⟩ := hq
    exact ⟨m, by rw [hsnd]; exact List.mem_filter.mpr ⟨hm, by simp [hr]⟩, hr, hc⟩
  have hne := findUserQuery_nonempty _ hq2
  simp only [buildAugmentedMessages]
  rw [if_neg (by simpa using hne)]
  constructor
  · rw [List.countP_append, List.countP_append]
    have hcN : ((splitSystem messages).2).countP (fun m => m.role == Role.system) = 0 := by
      rw [hsnd, List.countP_eq_zero]
      intro m hm
      have := (List.mem_filter.mp hm).2
      simpa using this
    have hcH :
        (if (fetchedOr [] workingRes).isEmpty then []
          else (fetchedOr [] workingRes).dropLast).countP
            (fun m => m.role == Role.system) = 0 := by
      split
      · rfl
      · rw [List.countP_eq_zero]
        intro m hm
        have hmem : m ∈ fetchedOr [] workingRes :=
          (List.dropLast_sublist (fetchedOr [] workingRes)).subset hm
        simpa using hh m hmem
    rw [hcN, hcH]
    simp only [Nat.add_zero]
    apply le_trans (List.countP_le_length _)
    cases hsys : (splitSystem messages).1 <;>
      (split <;> (try split) <;> (try split) <;> simp [hsys])
  · exact ⟨_, by rw [hsnd]⟩

/-- Witness for C4 amended at a concrete request with one system message,
one user message, a two-turn short-term history, a recall hit and a failed
archival fetch. -/
theorem C4_composer_amended_witness :
    (buildAugmentedMessages
        [⟨Role.system, some "s", none⟩, ⟨Role.user, some "q", none⟩]
        (Fetched.ok [⟨Role.user, some "old", none⟩, ⟨Role.user, some "q", none⟩])
        (Fetched.ok "recall hit") (Fetched.exn "kg down")).countP
        (fun m => m.role == Role.system) ≤ 1 ∧
      ∃ pre, buildAugmentedMessages
          [⟨Role.system, some "s", none⟩, ⟨Role.user, some "q", none⟩]
          (Fetched.ok [⟨Role.user, some "old", none⟩, ⟨Role.user, some "q", none⟩])
          (Fetched.ok "recall hit") (Fetched.exn "kg down")
        = pre ++ ([⟨Role.system, some "s", none⟩, ⟨Role.user, some "q", none⟩] :
            List ChatMessage).filter (fun m => !(m.role == Role.system)) :=
  C4_composer_amended _ _ _ _
    ⟨⟨Role.user, some "q", none⟩, by decide, rfl, by decide⟩ (by decide)

/-! ## C6: streaming proxy emission shape -/

theorem streamLines_shape (id : String) (created : Nat) (model : String)
    (lastContent : String) :
    ∀ (pre : List BackendLine), (∀ l ∈ pre, lineDone l = false) →
      streamLines id created model (pre ++ [BackendLine.json lastContent true])
        = (lineContents (pre ++ [BackendLine.json lastContent true])).map
            (fun s => SSEItem.chunk (contentChunk id created model s))
          ++ [SSEItem.chunk (finalChunk id created model), SSEItem.doneMarker] := by
  intro pre
  induction pre with
  | nil =>
    intro _
    simp only [List.nil_append]
    unfold streamLines lineContents
    by_cases hc : lastContent = ""
    · simp [hc]
    · simp [hc]
  | cons l t ih =>
    intro h
    cases l with
    | blank =>
      rw [List.cons_append]
      unfold streamLines
      rw [ih (fun x hx => h x (by simp [hx]))]
      simp [lineContents]
    | json c d =>
      have hd : d = false := by
        have := h (BackendLine.json c d) (by simp)
        simpa [lineDone] using this
      subst hd
      rw [List.cons_append]
      unfold streamLines
      rw [ih (fun x hx => h x (by simp [hx]))]
      by_cases hc : c = ""
      · simp [lineContents, hc]
      · simp [lineContents, hc]

theorem streamLines_uniform (id : String) (created : Nat) (model : String) :
    ∀ (lines : List BackendLine) (ch : StreamChunk),
      SSEItem.chunk ch ∈ streamLines id created model lines →
      ch.id = id ∧ ch.created = created := by
  intro lines
  induction lines with
  | nil => intro ch h; cases h
  | cons l rest ih =>
    intro ch h
    cases l with
    | blank =>
      exact ih ch (by simpa [streamLines] using h)
    | json c d =>
      unfold streamLines at h
      rcases List.mem_append.mp h with h1 | h2
      · cases hcc : (!(c == "")) with
        | false => rw [hcc] at h1; simp at h1
        | true =>
          rw [hcc] at h1
          simp only [if_true, List.mem_singleton] at h1
          have : ch = contentChunk id created model c := by
            injection h1
          rw [this]
          exact ⟨rfl, rfl⟩
      · cases d with
        | true =>
          simp only [if_true, List.mem_cons, List.mem_singleton] at h2
          rcases h2 with h3 | h3 | h3
          · have : ch = finalChunk id created model := by injection h3
            rw [this]
            exact ⟨rfl, rfl⟩
          · cases h3
          · cases h3
        | false =>
          simp only [Bool.false_eq_true, if_false] at h2
          exact ih ch h2

/-- C6: for a backend line sequence terminated by its done line, the proxy
emits the role-announcing chunk with empty delta first, then exactly one
content chunk per backend line with non-empty content, in order, then the
finish_reason stop chunk followed by the DONE marker; and all chunks of
the response share the stream id and the created timestamp fixed at
stream start. -/
theorem C6_stream_shape (id : String) (created : Nat) (model : String)
    (pre : List BackendLine) (lastContent : String)
    (hpre : ∀ l ∈ pre, lineDone l = false) :
    chatCompletionStream id created model (pre ++ [BackendLine.json lastContent true])
        = SSEItem.chunk (firstChunk id created model)
          :: ((lineContents (pre ++ [BackendLine.json lastContent true])).map
              (fun s => SSEItem.chunk (contentChunk id created model s))
            ++ [SSEItem.chunk (finalChunk id created model), SSEItem.doneMarker]) ∧
      (firstChunk id created model).delta.role = some "assistant" ∧
      (firstChunk id created model).delta.content = none ∧
      (∀ s, (contentChunk id created model s).delta.content = some s) ∧
      (finalChunk id created model).finishReason = some "stop" ∧
      (∀ ch : StreamChunk,
        SSEItem.chunk ch ∈ chatCompletionStream id created model
          (pre ++ [BackendLine.json lastContent true]) →
        ch.id = id ∧ ch.created = created) := by
  refine ⟨?_, rfl, rfl, fun s => rfl, rfl, ?_⟩
  · unfold chatCompletionStream
    rw [streamLines_shape id created model lastContent pre hpre]
  · intro ch h
    unfold chatCompletionStream at h
    rcases List.mem_cons.mp h with h1 | h2
    · have : ch = firstChunk id created model := by injection h1
      rw [this]
      exact ⟨rfl, rfl⟩
    · exact streamLines_uniform id created model _ ch h2

/-- Witness for C6 on a concrete backend stream of two content lines, a
blank line and an empty-content line before the terminating line. -/
theorem C6_stream_shape_witness :
    chatCompletionStream "id1" 5 "m"
        ([BackendLine.json "he" false, BackendLine.blank, BackendLine.json "" false]
          ++ [BackendLine.json "llo" true])
      = SSEItem.chunk (firstChunk "id1" 5 "m")
        :: ([SSEItem.chunk (contentChunk "id1" 5 "m" "he"),
             SSEItem.chunk (contentChunk "id1" 5 "m" "llo")]
          ++ [SSEItem.chunk (finalChunk "id1" 5 "m"), SSEItem.doneMarker]) := by
  rw [(C6_stream_shape "id1" 5 "m"
    [BackendLine.json "he" false, BackendLine.blank, BackendLine.json "" false]
    "llo" (by decide)).1]
  decide

/-! ## C7: archive unpacker cap and skip rules -/

theorem extractTarLoop_inv (ms : List TarMember) :
    ∀ acc : List (String × List Nat), acc.length < maxFiles →
      (∀ p ∈ acc, shouldSkip p.1.toList p.2.length = false) →
      (extractTarLoop acc ms).length ≤ maxFiles ∧
        ∀ p ∈ extractTarLoop acc ms, shouldSkip p.1.toList p.2.length = false := by
  induction ms with
  | nil => intro acc hlen hok; exact ⟨Nat.le_of_lt hlen, hok⟩
  | cons m rest ih =>
    intro acc hlen hok
    unfold extractTarLoop
    cases hmf : m.isFile with
    | false => simp only [hmf, Bool.not_false, if_true]; exact ih acc hlen hok
    | true =>
      simp only [hmf, Bool.not_true, Bool.false_eq_true, if_false]
      cases hsk : shouldSkip m.name.toList m.content.length with
      | true => simp only [if_true]; exact ih acc hlen hok
      | false =>
        simp only [Bool.false_eq_true, if_false]
        have hok2 : ∀ p ∈ acc ++ [(m.name, m.content)],
            shouldSkip p.1.toList p.2.length = false := by
          intro p hp
          rcases List.mem_append.mp hp with h | h
          · exact hok p h
          · rw [List.mem_singleton] at h
            subst h
            exact hsk
        by_cases hge : (acc ++ [(m.name, m.content)]).length ≥ maxFiles
        · rw [if_pos hge]
          have hlen2 : (acc ++ [(m.name, m.content)]).length = acc.length + 1 := by simp
          exact ⟨by omega, hok2⟩
        · rw [if_neg hge]
          have hlen2 : (acc ++ [(m.name, m.content)]).length = acc.length + 1 := by simp
          exact ih _ (by omega) hok2

theorem extractZipLoop_inv (es : List ZipEntry) :
    ∀ acc : List (String × List Nat), acc.length < maxFiles →
      (∀ p ∈ acc, shouldSkip p.1.toList p.2.length = false) →
      (extractZipLoop acc es).length ≤ maxFiles ∧
        ∀ p ∈ extractZipLoop acc es, shouldSkip p.1.toList p.2.length = false := by
  induction es with
  | nil => intro acc hlen hok; exact ⟨Nat.le_of_lt hlen, hok⟩
  | cons e rest ih =>
    intro acc hlen hok
    unfold extractZipLoop
    cases hmd : e.isDir with
    | true => simp only [hmd, if_true]; exact ih acc hlen hok
    | false =>
      simp only [hmd, Bool.false_eq_true, if_false]
      cases hsk : shouldSkip e.filename.toList e.content.length with
      | true => simp only [if_true]; exact ih acc hlen hok
      | false =>
        simp only [Bool.false_eq_true, if_false]
        have hok2 : ∀ p ∈ acc ++ [(e.filename, e.content)],
            shouldSkip p.1.toList p.2.length = false := by
          intro p hp
          rcases List.mem_append.mp hp with h | h
          · exact hok p h
          · rw [List.mem_singleton] at h
            subst h
            exact hsk
        by_cases hge : (acc ++ [(e.filename, e.content)]).length ≥ maxFiles
        · rw [if_pos hge]
          have hlen2 : (acc ++ [(e.filename, e.content)]).length = acc.length + 1 := by simp
          exact ⟨by omega, hok2⟩
        · rw [if_neg hge]
          have hlen2 : (acc ++ [(e.filename, e.content)]).length = acc.length + 1 := by simp
          exact ih _ (by omega) hok2

/-- C7: every archive the unpacker accepts yields at most two thousand
files, and every returned path and byte entry passes every skip rule:
no hidden or skip-directory segment, no skipped suffix, and a size that is
neither zero nor above one MiB (all summarized by the should-skip check
returning false). -/
theorem C7_unpacker_cap_and_skip (ar : ParsedArchive) :
    (extractArchive ar).length ≤ maxFiles ∧
      ∀ p ∈ extractArchive ar, shouldSkip p.1.toList p.2.length = false := by
  cases ar with
  | tarOf ms => exact extractTarLoop_inv ms [] (by decide) (by simp)
  | zipOf es => exact extractZipLoop_inv es [] (by decide) (by simp)
  | formatError => exact ⟨by decide, by simp [extractArchive]⟩
  | unrecognized => exact ⟨by decide, by simp [extractArchive]⟩

/-- Witness for C7 on a two-member tar archive of which one member is
skipped by its suffix. -/
theorem C7_unpacker_cap_and_skip_witness :
    (extractArchive (ParsedArchive.tarOf
        [⟨"src/a.py", true, [104, 105]⟩, ⟨"src/b.pyc", true, [1]⟩])).length ≤ maxFiles ∧
      shouldSkip "src/a.py".toList ([104, 105] : List Nat).length = false :=
  have h := C7_unpacker_cap_and_skip (ParsedArchive.tarOf
    [⟨"src/a.py", true, [104, 105]⟩, ⟨"src/b.pyc", true, [1]⟩])
  ⟨h.1, h.2 ("src/a.py", [104, 105]) (by decide)⟩

/-! ## C5: extractor entity bounds and relationship sources -/

theorem tsnode_sizeOf_pos (c : TSNode) : 1 ≤ sizeOf c := by
  cases c
  simp only [TSNode.mk.sizeOf_spec]
  omega

theorem tslist_sizeOf_pos (l : List TSNode) : 1 ≤ sizeOf l := by
  cases l with
  | nil => simp
  | cons a t => simp only [List.cons.sizeOf_spec]; omega

theorem foldl_rel_accum (cn : String) {β : Type}
    (f : List Relationship → β → List Relationship)
    (hf : ∀ acc b, ∃ Δ, f acc b = acc ++ Δ ∧ ∀ r ∈ Δ, r.source = cn) :
    ∀ (l : List β) (acc : List Relationship),
      ∃ Δ, l.foldl f acc = acc ++ Δ ∧ ∀ r ∈ Δ, r.source = cn := by
  intro l
  induction l with
  | nil => intro acc; exact ⟨[], by simp, by simp⟩
  | cons b t ih =>
    intro acc
    obtain ⟨Δ1, h1, hs1⟩ := hf acc b
    obtain ⟨Δ2, h2, hs2⟩ := ih (f acc b)
    refine ⟨Δ1 ++ Δ2, ?_, ?_⟩
    · rw [List.foldl_cons, h2, h1, List.append_assoc]
    · intro r hr
      rcases List.mem_append.mp hr with h | h
      · exact hs1 r h
      · exact hs2 r h

theorem extractInheritance_shape (language className : String) (n : TSNode)
    (rels : List Relationship) :
    ∃ Δ, extractInheritance language className n rels = rels ++ Δ ∧
      ∀ r ∈ Δ, r.source = className := by
  unfold extractInheritance
  split
  · refine foldl_rel_accum className _ ?_ n.children rels
    intro acc c
    split
    · refine foldl_rel_accum className _ ?_ c.children acc
      intro acc2 a
      split
      · exact ⟨[⟨className, a.text, "extends"⟩], rfl, by simp⟩
      · exact ⟨[], by simp, by simp⟩
    · exact ⟨[], by simp, by simp⟩
  · split
    · refine foldl_rel_accum className _ ?_ n.children rels
      intro acc c
      split
      · split
        · next nm _ => exact ⟨[⟨className, nm, "extends"⟩], rfl, by simp⟩
        · exact ⟨[], by simp, by simp⟩
      · split
        · refine foldl_rel_accum className _ ?_ c.children acc
          intro acc2 i
          split
          · exact ⟨[⟨className, i.text, "implements"⟩], rfl, by simp⟩
          · exact ⟨[], by simp, by simp⟩
        · exact ⟨[], by simp, by simp⟩
    · exact ⟨[], by simp, by simp⟩

theorem extract_inv (N : Nat) :
    (∀ (cs : List TSNode) (language : String) (src : List Char)
        (filePath parent : String) (st : ExtractState) (prev : Option TSNode),
        sizeOf cs ≤ N → wfNodes cs = true →
        (∀ e ∈ st.entities, e.lineStart ≤ e.lineEnd) →
        (∀ r ∈ st.rels, ∃ e ∈ st.entities, e.name = r.source ∧
          (e.kind = "module" ∨ e.kind = "class" ∨ e.kind = "interface")) →
        (∃ e ∈ st.entities, e.name = parent ∧
          (e.kind = "module" ∨ e.kind = "class" ∨ e.kind = "interface")) →
        (∀ e ∈ (extractChildren language src filePath parent st prev cs).entities,
            e.lineStart ≤ e.lineEnd) ∧
          (∀ r ∈ (extractChildren language src filePath parent st prev cs).rels,
            ∃ e ∈ (extractChildren language src filePath parent st prev cs).entities,
              e.name = r.source ∧
                (e.kind = "module" ∨ e.kind = "class" ∨ e.kind = "interface")) ∧
          (∃ Δ, (extractChildren language src filePath parent st prev cs).entities
              = st.entities ++ Δ)) ∧
      (∀ (c : TSNode) (language : String) (src : List Char)
        (filePath parent : String) (st : ExtractState) (prev : Option TSNode),
        sizeOf c ≤ N → TSNode.wf c = true →
        (∀ e ∈ st.entities, e.lineStart ≤ e.lineEnd) →
        (∀ r ∈ st.rels, ∃ e ∈ st.entities, e.name = r.source ∧
          (e.kind = "module" ∨ e.kind = "class" ∨ e.kind = "interface")) →
        (∃ e ∈ st.entities, e.name = parent ∧
          (e.kind = "module" ∨ e.kind = "class" ∨ e.kind = "interface")) →
        (∀ e ∈ (extractChild language src filePath parent st prev c).entities,
            e.lineStart ≤ e.lineEnd) ∧
          (∀ r ∈ (extractChild language src filePath parent st prev c).rels,
            ∃ e ∈ (extractChild language src filePath parent st prev c).entities,
              e.name = r.source ∧
                (e.kind = "module" ∨ e.kind = "class" ∨ e.kind = "interface")) ∧
          (∃ Δ, (extractChild language src filePath parent st prev c).entities
              = st.entities ++ Δ)) := by
  induction N with
  | zero =>
    constructor
    · intro cs language src filePath parent st prev hsz
      exact absurd hsz (by have := tslist_sizeOf_pos cs; omega)
    · intro c language src filePath parent st prev hsz
      exact absurd hsz (by have := tsnode_sizeOf_pos c; omega)
  | succ N ih =>
    obtain ⟨ihL, ihC⟩ := ih
    constructor
    · intro cs language src filePath parent st prev hsz hwf hE hR hP
      cases cs with
      | nil =>
        simp only [extractChildren]
        exact ⟨hE, hR, ⟨[], by simp⟩⟩
      | cons c rest =>
        have hsizes : sizeOf c ≤ N ∧ sizeOf rest ≤ N := by
          have h1 := tsnode_sizeOf_pos c
          have h2 := tslist_sizeOf_pos rest
          simp only [List.cons.sizeOf_spec] at hsz
          omega
        have hwfc : TSNode.wf c = true ∧ wfNodes rest = true := by
          cases c with
          | mk nty sr er sb eb tx ccs =>
            simp only [wfNodes, Bool.and_eq_true, decide_eq_true_eq] at hwf
            simp only [TSNode.wf, TSNode.startRow, TSNode.endRow, TSNode.children,
              Bool.and_eq_true, decide_eq_true_eq]
            tauto
        simp only [extractChildren]
        obtain ⟨hE2, hR2, Δ2, hΔ2⟩ :=
          ihC c language src filePath parent st prev hsizes.1 hwfc.1 hE hR hP
        have hP2 : ∃ e ∈ (extractChild language src filePath parent st prev c).entities,
            e.name = parent ∧
              (e.kind = "module" ∨ e.kind = "class" ∨ e.kind = "interface") := by
          obtain ⟨e, he, hn, hk⟩ := hP
          exact ⟨e, by rw [hΔ2]; exact List.mem_append_left _ he, hn, hk⟩
        obtain ⟨hE3, hR3, Δ3, hΔ3⟩ := ihL rest language src filePath parent
          (extractChild language src filePath parent st prev c) (some c)
          hsizes.2 hwfc.2 hE2 hR2 hP2
        exact ⟨hE3, hR3, ⟨Δ2 ++ Δ3, by rw [hΔ3, hΔ2, List.append_assoc]⟩⟩
    · intro c language src filePath parent st prev hsz hwf hE hR hP
      cases c with
      | mk nty sr er sb eb tx ccs =>
        have hwf2 : sr ≤ er ∧ wfNodes ccs = true := by
          simpa [TSNode.wf, TSNode.startRow, TSNode.endRow, TSNode.children,
            Bool.and_eq_true, decide_eq_true_eq] using hwf
        have hszccs : sizeOf ccs ≤ N := by
          simp only [TSNode.mk.sizeOf_spec] at hsz
          omega
        simp only [extractChild]
        by_cases hcl : (classTypes language).contains nty = true
        · rw [if_pos hcl]
          cases hgn : getName (TSNode.mk nty sr er sb eb tx ccs) with
          | none =>
            simp only [hgn]
            exact ⟨hE, hR, ⟨[], by simp⟩⟩
          | some nm =>
            simp only [hgn]
            obtain ⟨Δi, hΔi, hsrc⟩ := extractInheritance_shape language nm
              (TSNode.mk nty sr er sb eb tx ccs) (st.rels ++ [⟨parent, nm, "contains"⟩])
            rw [hΔi]
            have hkind :
                (if strContains nty "interface" then "interface" else "class") = "class" ∨
                (if strContains nty "interface" then "interface" else "class") = "interface" := by
              by_cases hi : strContains nty "interface" = true
              · right; rw [if_pos hi]
              · left; rw [if_neg hi]
            have hE2 : ∀ e ∈ st.entities ++
                [(⟨nm, (if strContains nty "interface" then "interface" else "class"),
                  filePath, sr + 1, er + 1, none,
                  getDocstring language prev (TSNode.mk nty sr er sb eb tx ccs),
                  some parent⟩ : Entity)],
                e.lineStart ≤ e.lineEnd := by
              intro e he
              rcases List.mem_append.mp he with h | h
              · exact hE e h
              · rw [List.mem_singleton] at h
                subst h
                simpa using Nat.succ_le_succ hwf2.1
            have hR2 : ∀ r ∈ (st.rels ++ [(⟨parent, nm, "contains"⟩ : Relationship)]) ++ Δi,
                ∃ e ∈ st.entities ++
                  [(⟨nm, (if strContains nty "interface" then "interface" else "class"),
                    filePath, sr + 1, er + 1, none,
                    getDocstring language prev (TSNode.mk nty sr er sb eb tx ccs),
                    some parent⟩ : Entity)],
                  e.name = r.source ∧
                    (e.kind = "module" ∨ e.kind = "class" ∨ e.kind = "interface") := by
              intro r hr
              rcases List.mem_append.mp hr with h | h
              · rcases List.mem_append.mp h with h0 | h0
                · obtain ⟨e, he, hn, hk⟩ := hR r h0
                  exact ⟨e, List.mem_append_left _ he, hn, hk⟩
                · rw [List.mem_singleton] at h0
                  subst h0
                  obtain ⟨e, he, hn, hk⟩ := hP
                  exact ⟨e, List.mem_append_left _ he, hn, hk⟩
              · refine ⟨_, List.mem_append_right _ (List.mem_singleton.mpr rfl), ?_, ?_⟩
                · simpa using (hsrc r h).symm
                · rcases hkind with hk | hk
                  · right; left; simpa using hk
                  · right; right; simpa using hk
            have hP2 : ∃ e ∈ st.entities ++
                [(⟨nm, (if strContains nty "interface" then "interface" else "class"),
                  filePath, sr + 1, er + 1, none,
                  getDocstring language prev (TSNode.mk nty sr er sb eb tx ccs),
                  some parent⟩ : Entity)],
                e.name = nm ∧
                  (e.kind = "module" ∨ e.kind = "class" ∨ e.kind = "interface") := by
              refine ⟨_, List.mem_append_right _ (List.mem_singleton.mpr rfl), rfl, ?_⟩
              rcases hkind with hk | hk
              · right; left; simpa using hk
              · right; right; simpa using hk
            obtain ⟨ha, hb, Δ2, hΔ2⟩ := ihL ccs language src filePath nm
              ⟨st.entities ++
                [(⟨nm, (if strContains nty "interface" then "interface" else "class"),
                  filePath, sr + 1, er + 1, none,
                  getDocstring language prev (TSNode.mk nty sr er sb eb tx ccs),
                  some parent⟩ : Entity)],
                (st.rels ++ [(⟨parent, nm, "contains"⟩ : Relationship)]) ++ Δi⟩
              none hszccs hwf2.2 hE2 hR2 hP2
            refine ⟨ha, hb,
              ⟨[(⟨nm, (if strContains nty "interface" then "interface" else "class"),
                  filePath, sr + 1, er + 1, none,
                  getDocstring language prev (TSNode.mk nty sr er sb eb tx ccs),
                  some parent⟩ : Entity)] ++ Δ2, ?_⟩⟩
            rw [hΔ2]
            simp [List.append_assoc]
        · rw [if_neg hcl]
          by_cases hfn : (funcTypes language).contains nty = true
          · rw [if_pos hfn]
            cases hgn : getName (TSNode.mk nty sr er sb eb tx ccs) with
            | none =>
              simp only [hgn]
              exact ⟨hE, hR, ⟨[], by simp⟩⟩
            | some nm =>
              simp only [hgn]
              refine ⟨?_, ?_, ⟨_, rfl⟩⟩
              · intro e he
                rcases List.mem_append.mp he with h | h
                · exact hE e h
                · rw [List.mem_singleton] at h
                  subst h
                  simpa using Nat.succ_le_succ hwf2.1
              · intro r hr
                rcases List.mem_append.mp hr with h | h
                · obtain ⟨e, he, hn, hk⟩ := hR r h
                  exact ⟨e, List.mem_append_left _ he, hn, hk⟩
                · rw [List.mem_singleton] at h
                  subst h
                  obtain ⟨e, he, hn, hk⟩ := hP
                  exact ⟨e, List.mem_append_left _ he, hn, hk⟩
          · rw [if_neg hfn]
            by_cases him : (importTypes language).contains nty = true
            · rw [if_pos him]
              cases hpt : parseImportTarget (String.mk (pyStrip (sliceChars src sb eb)))
                  language with
              | none =>
                simp only [hpt]
                exact ⟨hE, hR, ⟨[], by simp⟩⟩
              | some tgt =>
                simp only [hpt]
                by_cases htgt : (tgt == "") = true
                · rw [if_pos htgt]
                  exact ⟨hE, hR, ⟨[], by simp⟩⟩
                · rw [if_neg htgt]
                  refine ⟨hE, ?_, ⟨[], by simp⟩⟩
                  intro r hr
                  rcases List.mem_append.mp hr with h | h
                  · exact hR r h
                  · rw [List.mem_singleton] at h
                    subst h
                    exact hP
            · rw [if_neg him]
              by_cases hcc : ccs.length > 0
              · rw [if_pos hcc]
                exact ihL ccs language src filePath parent st none hszccs hwf2.2 hE hR hP
              · rw [if_neg hcc]
                exact ⟨hE, hR, ⟨[], by simp⟩⟩

/-- C5: for every source file the structured parse accepts, every entity of
the returned ParseResult satisfies line_start less-or-equal line_end, and
the source of every returned relationship is the name of an entity of the
result that is the file module entity or a class or interface entity. The
well-formedness hypothesis is the per-node row ordering a tree-sitter
parse tree guarantees. -/
theorem C5_parser_invariants (filePath : String) (content : List Char)
    (language : String) (root : TSNode) (hwf : wfNodes root.children = true)
    (res : ParseResult) (hres : parseFile filePath content language root = some res) :
    (∀ e ∈ res.entities, e.lineStart ≤ e.lineEnd) ∧
      ∀ r ∈ res.relationships, ∃ e ∈ res.entities, e.name = r.source ∧
        (e.kind = "module" ∨ e.kind = "class" ∨ e.kind = "interface") := by
  by_cases hl : supportedLanguages.contains language = true
  · simp only [parseFile, hl, if_true, Option.some.injEq] at hres
    subst hres
    have h := (extract_inv (sizeOf root.children)).1 root.children language content filePath
      (String.mk ((splitOnChar '/' filePath.toList).getLast?.getD filePath.toList))
      ⟨[⟨String.mk ((splitOnChar '/' filePath.toList).getLast?.getD filePath.toList),
        "module", filePath, 1, content.countP (fun c => c == '\n') + 1, none, none, none⟩],
       []⟩
      none le_rfl hwf
      (by intro e he; rw [List.mem_singleton] at he; subst he; simp)
      (by intro r hr; cases hr)
      ⟨_, List.mem_singleton.mpr rfl, rfl, Or.inl rfl⟩
    exact ⟨h.1, h.2.1⟩
  · simp only [parseFile, hl, Bool.false_eq_true, if_false] at hres
    cases hres

/-- Witness for C5 on a one-class python file parse tree. -/
theorem C5_parser_invariants_witness :
    (∀ e ∈ ([⟨"b.py", "module", "b.py", 1, 1, none, none, none⟩,
        ⟨"Foo", "class", "b.py", 1, 3, none, none, some "b.py"⟩] : List Entity),
        e.lineStart ≤ e.lineEnd) ∧
      ∀ r ∈ ([⟨"b.py", "Foo", "contains"⟩] : List Relationship),
        ∃ e ∈ ([⟨"b.py", "module", "b.py", 1, 1, none, none, none⟩,
            ⟨"Foo", "class", "b.py", 1, 3, none, none, some "b.py"⟩] : List Entity),
          e.name = r.source ∧
            (e.kind = "module" ∨ e.kind = "class" ∨ e.kind = "interface") :=
  C5_parser_invariants "b.py" [] "python"
    (TSNode.mk "module" 0 2 0 30 "" [TSNode.mk "class_definition" 0 2 0 30 ""
      [TSNode.mk "identifier" 0 0 6 9 "Foo" []]])
    (by simp [wfNodes, TSNode.children])
    ⟨"b.py", "python",
      [⟨"b.py", "module", "b.py", 1, 1, none, none, none⟩,
       ⟨"Foo", "class", "b.py", 1, 3, none, none, some "b.py"⟩],
      [⟨"b.py", "Foo", "contains"⟩]⟩
    (by
      have hsplit : ((splitOnChar '/' "b.py".toList).getLast?.getD "b.py".toList)
          = "b.py".toList := by decide
      simp only [parseFile, extractNode, supportedLanguages, hsplit]
      simp [extractChildren, extractChild, getName, getNameList, classTypes, funcTypes,
        importTypes, getDocstring, extractInheritance, strContains, containsChars,
        startsWithChars, TSNode.children, TSNode.ntype, TSNode.text,
        TSNode.startByte, TSNode.endByte, TSNode.startRow, TSNode.endRow])
